import Mathlib

set_option maxRecDepth 100000

/-!
Shallow embedding of the pg-oui library: the dataset builder (buildFromCSV,
createIndex), the lookup engine (Open, DB.Lookup, DB.vendorByID) and the name
normalizer (simplifyName), together with proofs about them.

Bytes are modelled as Lean Char values (one Char per byte; all the data the
library handles in the verified claims is ASCII), and files as List Char.
Go maps are modelled as association lists with overwriting insert; Go int /
int64 as Int with explicit wrapping at 2 ^ 64 where the source can overflow.
-/

namespace PgOui

/-- ASCII lower-casing of one character. Models Go strings.ToLower restricted
to the ASCII range (the OUI keys and queries the claims quantify over are
ASCII; full Unicode case mapping differs only outside ASCII). -/
def asciiToLower (c : Char) : Char :=
  if 'A' ≤ c ∧ c ≤ 'Z' then Char.ofNat (c.toNat + 32) else c

/-- ASCII upper-casing of one character, used to state the normalization
invariance claim. -/
def asciiToUpper (c : Char) : Char :=
  if 'a' ≤ c ∧ c ≤ 'z' then Char.ofNat (c.toNat - 32) else c

/-- ASCII whitespace recognized by Go strings.TrimSpace (unicode.IsSpace
restricted to ASCII): space, tab, newline, vertical tab, form feed, CR. -/
def isSpaceChar (c : Char) : Bool :=
  c == ' ' || c == '\t' || c == '\n' || c == '\x0b' || c == '\x0c' || c == '\r'

/-- Whitespace class matched by the regexp escape backslash-s in Go regexp:
tab, newline, form feed, CR, space (note: no vertical tab). -/
def isRegexSpace (c : Char) : Bool :=
  c == '\t' || c == '\n' || c == '\x0c' || c == '\r' || c == ' '

/-- Go strings.TrimSpace on a byte list (ASCII whitespace). -/
def trimSpace (s : List Char) : List Char :=
  ((s.dropWhile isSpaceChar).reverse.dropWhile isSpaceChar).reverse

/-- The word alternatives of llcRegex: (?i),?\s*(llc|ltd|limited|inc|incorporated)\.?$ -/
def llcWords : List (List Char) :=
  [("llc").data, ("ltd").data, ("limited").data, ("inc").data, ("incorporated").data]

/-- The word alternatives of coRegex: (?i),?\s*(co|company|corp|corporation)\.?$ -/
def coWords : List (List Char) :=
  [("co").data, ("company").data, ("corp").data, ("corporation").data]

/-- The word alternative of gmbhRegex: (?i),?\s*gmbh\.?$ -/
def gmbhWords : List (List Char) :=
  [("gmbh").data]

/-- Whether the regexp `,?\s*(w1|...|wk)\.?$` (case-insensitive) matches the
whole suffix t. Since the comma is optional-then-spaces-then-word, the
decomposition is deterministic: consume one leading comma if present, then all
regexp whitespace, and the remainder (lower-cased) must be a word of the
family, optionally followed by a period. -/
def famMatch (words : List (List Char)) (t : List Char) : Bool :=
  let t1 := match t with
    | ',' :: r => r
    | _ => t
  let t2 := t1.dropWhile isRegexSpace
  let low := t2.map asciiToLower
  words.any (fun w => low == w || low == w ++ ['.'])

/-- One ReplaceAll of an end-anchored family regexp with the empty string:
the leftmost position whose suffix matches is found and that suffix (which
necessarily extends to the end of the string) is deleted. -/
def famStrip (words : List (List Char)) (s : List Char) : List Char :=
  match (List.range (s.length + 1)).find? (fun i => famMatch words (s.drop i)) with
  | some i => s.take i
  | none => s

/-- Model of simplifyName from the library builder: apply llcRegex, then
coRegex, then gmbhRegex (each a single end-anchored ReplaceAll), then
strings.TrimSpace. -/
def simplifyName (s : List Char) : List Char :=
  trimSpace (famStrip gmbhWords (famStrip coWords (famStrip llcWords s)))

/-- The characters deleted by macCleaner (strings.NewReplacer mapping each of
":", "-", ".", " " to the empty string). -/
def isSepChar (c : Char) : Bool :=
  c == ':' || c == '-' || c == '.' || c == ' '

/-- Model of macCleaner.Replace: delete every separator character. -/
def macCleaner (s : List Char) : List Char :=
  s.filter (fun c => !isSepChar c)

/-- Association-list find, modelling a read from a Go map. -/
def assocFind {β : Type} (m : List (List Char × β)) (k : List Char) : Option β :=
  match m with
  | [] => none
  | (k2, v) :: t => if k2 = k then some v else assocFind t k

/-- Association-list insert with overwrite, modelling a write to a Go map. -/
def assocInsert {β : Type} (m : List (List Char × β)) (k : List Char) (v : β) :
    List (List Char × β) :=
  match m with
  | [] => [(k, v)]
  | (k2, v2) :: t => if k2 = k then (k, v) :: t else (k2, v2) :: assocInsert t k v

/-- Decimal digit test, as in the library's minimal atoi. -/
def isDigitChar (c : Char) : Bool :=
  '0' ≤ c && c ≤ '9'

/-- Value of a decimal digit string; none if any character is not a digit. -/
def digitsVal (s : List Char) : Option Nat :=
  s.foldl
    (fun acc c =>
      match acc with
      | none => none
      | some n => if isDigitChar c then some (n * 10 + (c.toNat - 48)) else none)
    (some 0)

/-- Interpret a natural number as a two's-complement signed 64-bit value,
the way the accumulated Go int wraps. -/
def toSigned64 (n : Nat) : Int :=
  let m : Nat := n % (2 ^ 64)
  if m < 2 ^ 63 then (m : Int) else (m : Int) - 2 ^ 64

/-- Model of the library's minimal atoi: optional leading minus (not alone),
decimal digits only, accumulated in a wrapping 64-bit Go int. -/
def atoi (s : List Char) : Option Int :=
  match s with
  | [] => none
  | '-' :: rest =>
    if rest.isEmpty then none
    else (digitsVal rest).map (fun d => toSigned64 (2 ^ 64 - d % (2 ^ 64)))
  | _ => (digitsVal s).map toSigned64

/-- The in-memory database built by Open: the entries map, the raw vendors
file and the decoded little-endian int64 offsets. -/
structure DB where
  entries : List (List Char × Int)
  vendors : List Char
  offsets : List Int
deriving DecidableEq

/-- Outcome of vendorByID: a vendor line, a Go error, or a runtime panic
(out-of-range slice index). -/
inductive VendorRes where
  | ok (v : List Char)
  | err
  | panic
deriving DecidableEq

/-- Outcome of Lookup: the (name, found) pair, or a runtime panic propagated
from vendorByID. -/
inductive LookupRes where
  | ok (name : List Char) (found : Bool)
  | panic
deriving DecidableEq

/-- bytes.IndexByte-then-slice of the fallback scan: everything before the
first newline (the whole buffer when no newline occurs). -/
def scanToNewline (b : List Char) : List Char :=
  b.takeWhile (fun c => !(c == '\n'))

/-- bytes.TrimRight(line, CR LF): drop trailing carriage returns/newlines. -/
def trimRightNL (s : List Char) : List Char :=
  (s.reverse.dropWhile (fun c => c == '\r' || c == '\n')).reverse

/-- Model of DB.vendorByID: ids are treated as 1-based, idx = id - 1; an idx
outside the offset table is an error (no fallback); a failed bounds check
0 ≤ start ≤ end ≤ len(vendors) degrades to a newline scan from start, which
errors when start is at or past the end of the buffer and panics (negative
slice index) when start is negative. -/
def vendorByID (db : DB) (id : Int) : VendorRes :=
  if id - 1 < 0 ∨ (db.offsets.length : Int) ≤ (id - 1) + 1 then .err
  else
    if db.offsets.getD (id - 1).toNat 0 < 0 ∨
        db.offsets.getD ((id - 1).toNat + 1) 0 < db.offsets.getD (id - 1).toNat 0 ∨
        (db.vendors.length : Int) < db.offsets.getD ((id - 1).toNat + 1) 0 then
      if (db.vendors.length : Int) ≤ db.offsets.getD (id - 1).toNat 0 then .err
      else if db.offsets.getD (id - 1).toNat 0 < 0 then .panic
      else
        .ok (trimRightNL (scanToNewline
          (db.vendors.drop (db.offsets.getD (id - 1).toNat 0).toNat)))
    else
      .ok (trimRightNL
        ((db.vendors.take (db.offsets.getD ((id - 1).toNat + 1) 0).toNat).drop
          (db.offsets.getD (id - 1).toNat 0).toNat))

/-- The normalized key Lookup uses: separators removed, truncated to the
first 6 characters, lower-cased. -/
def normKey (s : List Char) : List Char :=
  ((macCleaner s).take 6).map asciiToLower

/-- Model of DB.Lookup: normalize, reject under-length, truncate over-length,
lower-case, consult the entries map (absent or non-positive id is not-found),
then resolve via vendorByID (whose error becomes not-found). -/
def Lookup (db : DB) (s : List Char) : LookupRes :=
  if (macCleaner s).length < 6 then .ok [] false
  else
    match assocFind db.entries (normKey s) with
    | none => .ok [] false
    | some id =>
      if id ≤ 0 then .ok [] false
      else
        match vendorByID db id with
        | .ok v => .ok v true
        | .err => .ok [] false
        | .panic => .panic

/-- One iteration of Open's entries-loading loop: skip records with fewer
than two fields or a non-numeric id column, otherwise write to the map
(overwriting any earlier binding of the same OUI string). -/
def entriesStep (m : List (List Char × Int)) (rec : List (List Char)) :
    List (List Char × Int) :=
  if rec.length < 2 then m
  else
    match atoi (rec.getD 1 []) with
    | none => m
    | some id => assocInsert m (rec.getD 0 []) id

/-- Open's entries-loading loop over the parsed CSV records. -/
def loadEntries (recs : List (List (List Char))) : List (List Char × Int) :=
  recs.foldl entriesStep []

/-- Standard single-character split ("a,b" into "a" / "b"; the empty string
yields one empty field). -/
def splitOnChar (sep : Char) : List Char → List (List Char)
  | [] => [[]]
  | c :: rest =>
    match splitOnChar sep rest with
    | [] => [[c]]
    | h :: t => if c == sep then [] :: h :: t else (c :: h) :: t

/-- Model of encoding/csv parsing restricted to the quote-free records the
library itself writes: one record per line, blank lines skipped (as
csv.Reader does), fields split at commas. -/
def parseEntriesCSV (bs : List Char) : List (List (List Char)) :=
  ((splitOnChar '\n' bs).filter (fun l => !l.isEmpty)).map (splitOnChar ',')

/-- Concatenate a list of byte lists. -/
def concatAll (l : List (List Char)) : List Char :=
  l.foldr (fun a b => a ++ b) []

/-- binary.Write of one little-endian int64 (two's complement for negative
values): eight bytes, least significant first. -/
def encodeLE8 (n : Int) : List Char :=
  let m := (n % (2 ^ 64 : Int)).toNat
  (List.range 8).map (fun i => Char.ofNat ((m / 256 ^ i) % 256))

/-- binary.Read of one little-endian int64 from an 8-byte chunk. -/
def decodeLE8 (b : List Char) : Int :=
  toSigned64 ((b.take 8).foldr (fun c acc => acc * 256 + c.toNat) 0)

/-- Open's index-decoding loop: consume 8-byte little-endian chunks until the
bytes run out. -/
def decodeOffsets : List Char → List Int
  | b0 :: b1 :: b2 :: b3 :: b4 :: b5 :: b6 :: b7 :: rest =>
    decodeLE8 [b0, b1, b2, b3, b4, b5, b6, b7] :: decodeOffsets rest
  | _ => []

/-- Model of Open on the three file contents: parse the entries CSV into the
map (last row wins), keep the vendors bytes, decode the index; fail when the
index is empty or its length is not a multiple of 8 (partial trailing chunk). -/
def openDB (entriesB vendorsB indexB : List Char) : Option DB :=
  if indexB.length = 0 ∨ indexB.length % 8 ≠ 0 then none
  else
    some { entries := loadEntries (parseEntriesCSV entriesB),
           vendors := vendorsB,
           offsets := decodeOffsets indexB }

/-- bufio.ScanLines's dropCR: remove one trailing carriage return. -/
def dropCR (l : List Char) : List Char :=
  if l.getLast? = some '\r' then l.dropLast else l

/-- Accumulator form of the bufio.Scanner line loop: split at newlines, apply
dropCR to each token, emit a final token only for a nonempty remainder. -/
def splitLinesAux : List Char → List Char → List (List Char)
  | cur, [] => if cur.isEmpty then [] else [dropCR cur.reverse]
  | cur, c :: rest =>
    if c = '\n' then dropCR cur.reverse :: splitLinesAux [] rest
    else splitLinesAux (c :: cur) rest

/-- The tokens bufio.Scanner (ScanLines) produces for a file. -/
def splitLines (s : List Char) : List (List Char) :=
  splitLinesAux [] s

/-- The running offsets createIndex writes: the current offset before each
line, advanced by len(line) + 1 per token, with one leading entry for
offset 0 and hence one final entry after the last token. -/
def offsetsFrom (off : Int) : List (List Char) → List Int
  | [] => [off]
  | t :: ts => off :: offsetsFrom (off + t.length + 1) ts

/-- The offset sequence createIndex computes for a data file. -/
def createIndexOffsets (file : List Char) : List Int :=
  offsetsFrom 0 (splitLines file)

/-- The bytes of the index file createIndex writes: each offset as a
little-endian int64. -/
def createIndexBytes (file : List Char) : List Char :=
  concatAll ((createIndexOffsets file).map encodeLE8)

/-- strings.ReplaceAll(s, quote, empty): delete every double-quote. -/
def stripQuotes (s : List Char) : List Char :=
  s.filter (fun c => !(c == '"'))

/-- The OUI a builder row yields: column 2 trimmed and lower-cased. -/
def rowOUI (rec : List (List Char)) : List Char :=
  (trimSpace (rec.getD 1 [])).map asciiToLower

/-- The raw vendor a builder row yields: column 3 trimmed and quote-stripped
(this is the value the vendor filter sees, before simplifyName). -/
def rowVendor (rec : List (List Char)) : List Char :=
  stripQuotes (trimSpace (rec.getD 2 []))

/-- Whether buildFromCSV keeps a row: at least 3 columns, the OUI passes the
OUI filter and the raw vendor passes the vendor filter (the three sequential
continue statements of the loop, combined; the guards are pure). -/
def rowAccepted (aO aV : List Char → Bool) (rec : List (List Char)) : Bool :=
  decide (3 ≤ rec.length) && aO (rowOUI rec) && aV (rowVendor rec)

/-- The loop state of buildFromCSV: the OUI dedup map, the vendor-id map, the
accumulated entries and the vendors in first-seen order. The Go id counter
always equals len(vendors) (both start at 0 and are bumped together), so the
model uses vendorsAcc.length for it. -/
structure BState where
  ouiMap : List (List Char × List Char)
  vendorMap : List (List Char × Nat)
  entriesAcc : List (List Char × Nat)
  vendorsAcc : List (List Char)
deriving DecidableEq

/-- The body of buildFromCSV's loop for an accepted row with normalized OUI o
and simplified vendor v: skip if o is already assigned (first occurrence
wins), else record o, assign v the next id if new, and append the entry. -/
def buildStepAccepted (st : BState) (o v : List Char) : BState :=
  if (assocFind st.ouiMap o).isSome then st
  else
    match assocFind st.vendorMap v with
    | some vid =>
      { st with ouiMap := (o, v) :: st.ouiMap, entriesAcc := st.entriesAcc ++ [(o, vid)] }
    | none =>
      { ouiMap := (o, v) :: st.ouiMap,
        vendorMap := (v, st.vendorsAcc.length) :: st.vendorMap,
        entriesAcc := st.entriesAcc ++ [(o, st.vendorsAcc.length)],
        vendorsAcc := st.vendorsAcc ++ [v] }

/-- One row of buildFromCSV's loop. -/
def buildStep (aO aV : List Char → Bool) (st : BState) (rec : List (List Char)) : BState :=
  if rowAccepted aO aV rec then
    buildStepAccepted st (rowOUI rec) (simplifyName (rowVendor rec))
  else st

/-- Hex-digit test for strconv.ParseInt base 16. -/
def isHexDigit (c : Char) : Bool :=
  ('0' ≤ c && c ≤ '9') || ('a' ≤ c && c ≤ 'f') || ('A' ≤ c && c ≤ 'F')

/-- Value of one hex digit. -/
def hexDigitVal (c : Char) : Nat :=
  if '0' ≤ c && c ≤ '9' then c.toNat - 48
  else if 'a' ≤ c && c ≤ 'f' then c.toNat - 87
  else if 'A' ≤ c && c ≤ 'F' then c.toNat - 55
  else 0

/-- Model of strconv.ParseInt(s, 16, 64) with the error ignored as the sort
comparator does: 0 on a syntax error, the clamped int64 bound on range
overflow, the signed value otherwise. -/
def hexVal (s : List Char) : Int :=
  let core := fun (d : List Char) (neg : Bool) =>
    if d.isEmpty || !(d.all isHexDigit) then (0 : Int)
    else
      let v : Nat := d.foldl (fun a c => a * 16 + hexDigitVal c) 0
      if neg then (if (v : Int) > 2 ^ 63 then -(2 ^ 63) else -(v : Int))
      else (if (v : Int) > 2 ^ 63 - 1 then 2 ^ 63 - 1 else (v : Int))
  match s with
  | '-' :: rest => core rest true
  | '+' :: rest => core rest false
  | _ => core s false

/-- Insertion by ascending hex value of the OUI, modelling the sort.Slice
comparator ai < aj on ParseInt-ed OUIs. -/
def insertByHex (e : List Char × Nat) : List (List Char × Nat) → List (List Char × Nat)
  | [] => [e]
  | f :: t => if hexVal e.1 ≤ hexVal f.1 then e :: f :: t else f :: insertByHex e t

/-- Sorting of the accumulated entries by numeric OUI value. -/
def sortByHex (l : List (List Char × Nat)) : List (List Char × Nat) :=
  l.foldr insertByHex []

/-- The two tables buildFromCSV produces. -/
structure BuildOut where
  entries : List (List Char × Nat)
  vendors : List (List Char)
deriving DecidableEq

/-- buildFromCSV's processing of the data rows (after the header): run the
loop over the rows, then sort the entries by numeric OUI. The Go filter
closures are abstracted as the two boolean predicates they compute. -/
def buildRows (aO aV : List Char → Bool) (rows : List (List (List Char))) : BuildOut :=
  let st := rows.foldl (buildStep aO aV) ⟨[], [], [], []⟩
  ⟨sortByHex st.entriesAcc, st.vendorsAcc⟩

/-- buildFromCSV on the full record list: the first record is the discarded
header (an empty CSV is an error), the rest are the data rows. -/
def buildFromCSV (aO aV : List Char → Bool) (records : List (List (List Char))) :
    Option BuildOut :=
  match records with
  | [] => none
  | _ :: rows => some (buildRows aO aV rows)

/-- Decimal rendering of a natural number, for the entries lines the builder
writes with Fprintf percent-d. -/
def natToChars (n : Nat) : List Char :=
  Nat.toDigits 10 n

/-- The entries file the builder writes: one "oui,vendorID" line per entry. -/
def serializeEntries (l : List (List Char × Nat)) : List Char :=
  concatAll (l.map (fun e => e.1 ++ ',' :: (natToChars e.2 ++ ['\n'])))

/-- The vendors file the builder writes: one vendor name per line. -/
def serializeVendors (vs : List (List Char)) : List Char :=
  concatAll (vs.map (fun v => v ++ ['\n']))

/-- The whole build-then-open pipeline: build the three files from the raw
CSV records, then Open them. -/
def pipelineDB (aO aV : List Char → Bool) (records : List (List (List Char))) : Option DB :=
  (buildFromCSV aO aV records).bind
    (fun out =>
      openDB (serializeEntries out.entries) (serializeVendors out.vendors)
        (createIndexBytes (serializeVendors out.vendors)))

/-- Modelled from the spec (first-occurrence-wins dedup policy): the
simplified vendor name of the first accepted row carrying the given
normalized OUI, if any. Used to state that only the first occurrence's
assignment survives a build. -/
def firstVendorFor (aO aV : List Char → Bool) :
    List (List (List Char)) → List Char → Option (List Char)
  | [], _ => none
  | r :: rest, o =>
    if rowAccepted aO aV r && (rowOUI r == o) then some (simplifyName (rowVendor r))
    else firstVendorFor aO aV rest o

/-- Modelled from the claim (last-occurrence-wins at load time): the id of
the last entries row whose first column is the given OUI string and whose id
column parses; later rows shadow earlier ones. -/
def lastValidId (recs : List (List (List Char))) (o : List Char) : Option Int :=
  match recs with
  | [] => none
  | r :: rest =>
    match lastValidId rest o with
    | some id => some id
    | none =>
      if 2 ≤ r.length ∧ r.getD 0 [] = o then atoi (r.getD 1 []) else none

/-- The lowercase hex alphabet of persisted OUIs. -/
def hexLowerChars : List Char :=
  ("0123456789abcdef").data

/-- A valid 6-hex-character OUI in persisted (lowercase) form. -/
def ValidOUI (x : List Char) : Prop :=
  x.length = 6 ∧ ∀ c ∈ x, c ∈ hexLowerChars

instance (x : List Char) : Decidable (ValidOUI x) := by
  unfold ValidOUI
  infer_instance

/-- A file in which every line, including the last, is newline-terminated:
the concatenation of the lines, each followed by one newline byte. -/
def joinLines (lines : List (List Char)) : List Char :=
  concatAll (lines.map (fun v => v ++ ['\n']))

/-- Total byte contribution of the lines, one newline per line included. -/
def lineLenSum : List (List Char) → Int
  | [] => 0
  | t :: ts => t.length + 1 + lineLenSum ts

/-- One application of an end-anchored family regexp strips at most one
trailing match: the output is the input unchanged, or the input cut at a
position whose suffix matches the family. -/
def StripsAtMostOne (words : List (List Char)) (s out : List Char) : Prop :=
  out = s ∨ ∃ i, out = s.take i ∧ famMatch words (s.drop i) = true

/-- The loop invariant of buildFromCSV: every accumulated entry goes through
the dedup map and the vendor-id map, and the vendor-id map indexes correctly
into the accumulated vendor list. -/
def Inv (st : BState) : Prop :=
  (∀ p ∈ st.entriesAcc,
    ∃ v, assocFind st.ouiMap p.1 = some v ∧ assocFind st.vendorMap v = some p.2) ∧
  (∀ v n, assocFind st.vendorMap v = some n → st.vendorsAcc[n]? = some v)

/-! Concrete data used by the theorems and witnesses below. -/

/-- A raw-registry CSV (header plus two data rows) with two distinct OUIs
and two distinct vendors. -/
def c1Records : List (List (List Char)) :=
  [[("Registry").data, ("Assignment").data, ("Organization Name").data],
   [("MA-L").data, ("001122").data, ("Acme").data],
   [("MA-L").data, ("334455").data, ("Beta").data]]

/-- The trivial filter predicate (no filter configured). -/
def allTrue : List Char → Bool :=
  fun _ => true

/-- The entries file of the binding regression scenario. -/
def entriesB2 : List Char :=
  ("abcdef,1\nabcd12,2\n").data

/-- The vendors file of the binding regression scenario. -/
def vendorsB2 : List Char :=
  ("Vendor One\nVendor Two\n").data

/-- The matching offset index of the binding regression scenario. -/
def indexB2 : List Char :=
  createIndexBytes vendorsB2

/-- An index file whose first offset is the int64 value -1: loadable by Open
(16 bytes, little-endian), but corrupt. -/
def negIndexBytes : List Char :=
  concatAll ([(-1 : Int), 2].map encodeLE8)

/-- A loaded DB used by the lookup witnesses. -/
def dbW : DB :=
  { entries := [((("abcdef").data), 1)], vendors := ("Acme\n").data, offsets := [0, 5] }

/-- A loaded DB whose single entry carries an id past the offset table. -/
def dbTen : DB :=
  { entries := [((("abcdef").data), 5)], vendors := ("Acme\n").data, offsets := [0, 5] }

/-- A loaded DB whose end offset overshoots the vendors buffer, triggering
the scan fallback. -/
def dbSeven : DB :=
  { entries := [((("aaaaaa").data), 1)], vendors := ("X\n").data, offsets := [0, 99] }

/-! Theorems settling the claims. -/

/-- Claim C1 (code bug): the builder assigns 0-based vendor IDs while the
lookup engine, the repository README and its regression test treat IDs as
1-based line numbers. On the concrete registry c1Records the freshly built
EntriesTable contains ("001122", 0) and ("334455", 1), yet looking the OUIs
up in the opened dataset yields not-found for "001122" (id 0 is rejected)
and the wrong vendor "Acme" for "334455" (line id-1 is returned), instead of
"Acme" and "Beta" as the round-trip property requires. -/
theorem c1_vendor_id_base_bug :
    ((buildFromCSV allTrue allTrue c1Records).map (fun out => (out.entries, out.vendors)) =
      some ([((("001122").data), 0), ((("334455").data), 1)],
            [("Acme").data, ("Beta").data])) ∧
    ((pipelineDB allTrue allTrue c1Records).map
        (fun db => (Lookup db (("001122").data), Lookup db (("334455").data))) =
      some (LookupRes.ok [] false, LookupRes.ok (("Acme").data) true)) := by
  decide

/-- Claim C2: with vendors lines "Vendor One"/"Vendor Two", the matching
offset index and entries rows "abcdef,1"/"abcd12,2", the lookup engine
returns ("Vendor One", true) for "AB:CD:EF:12:34:56", ("Vendor Two", true)
for "abcd12" and ("", false) for "123456". -/
theorem c2_concrete_scenario :
    (openDB entriesB2 vendorsB2 indexB2).map
      (fun db =>
        (Lookup db (("AB:CD:EF:12:34:56").data),
         Lookup db (("abcd12").data),
         Lookup db (("123456").data))) =
    some (LookupRes.ok (("Vendor One").data) true,
          LookupRes.ok (("Vendor Two").data) true,
          LookupRes.ok [] false) := by
  decide

/-- Claim C3 counterexample: the file consisting of the single
newline-terminated line "a CR" (three bytes) gets an offset index whose last
entry is 2, not the file length 3 — bufio.ScanLines drops the carriage
return before the offset is advanced. -/
theorem c3_counterexample :
    ('\n' ∉ (['a', '\r'] : List Char)) ∧
    (createIndexOffsets ((['a', '\r'] : List Char) ++ ['\n'])).getLast? = some 2 ∧
    ((((['a', '\r'] : List Char) ++ ['\n']).length : Int) ≠ 2) := by
  decide

/-- Claim C6: a query that normalizes to fewer than 6 characters, or whose
normalized key is absent from the entries map (the unknown/malformed
queries), makes Lookup return ("", false) — in particular it never panics
there. -/
theorem c6_underlength_and_totality (db : DB) (q : List Char)
    (h : (macCleaner q).length < 6 ∨ assocFind db.entries (normKey q) = none) :
    Lookup db q = LookupRes.ok [] false := by
  unfold Lookup
  rcases h with h | h
  · rw [if_pos h]
  · by_cases h6 : (macCleaner q).length < 6
    · rw [if_pos h6]
    · rw [if_neg h6, h]

/-- Witness for C6 at a concrete short query. -/
theorem c6_witness :
    ((macCleaner (("12").data)).length < 6 ∨
      assocFind dbW.entries (normKey (("12").data)) = none) ∧
    Lookup dbW (("12").data) = LookupRes.ok [] false :=
  ⟨Or.inl (by decide), c6_underlength_and_totality dbW (("12").data) (Or.inl (by decide))⟩

theorem dropCR_of_no_cr {l : List Char} (h : l.getLast? ≠ some '\r') :
    dropCR l = l := by
  unfold dropCR
  rw [if_neg h]

theorem splitLinesAux_line (l : List Char) :
    ∀ (acc rest : List Char), '\n' ∉ l →
    splitLinesAux acc (l ++ '\n' :: rest) =
      dropCR (acc.reverse ++ l) :: splitLinesAux [] rest := by
  induction l with
  | nil =>
    intro acc rest h
    show splitLinesAux acc ('\n' :: rest) = _
    simp [splitLinesAux]
  | cons c l ih =>
    intro acc rest h
    have hc : c ≠ '\n' := fun hh => h (hh ▸ List.mem_cons_self c l)
    show splitLinesAux acc (c :: (l ++ '\n' :: rest)) = _
    rw [show splitLinesAux acc (c :: (l ++ '\n' :: rest)) =
        (if c = '\n' then dropCR acc.reverse :: splitLinesAux [] (l ++ '\n' :: rest)
         else splitLinesAux (c :: acc) (l ++ '\n' :: rest)) from rfl]
    rw [if_neg hc, ih (c :: acc) rest (fun hm => h (List.mem_cons_of_mem c hm))]
    rw [List.reverse_cons, List.append_assoc]
    rfl

/-- On a file whose every line is newline-terminated, contains no embedded
newline and does not end in a carriage return, the scanner recovers exactly
those lines. -/
theorem splitLines_joinLines (lines : List (List Char))
    (h : ∀ l ∈ lines, '\n' ∉ l ∧ l.getLast? ≠ some '\r') :
    splitLines (joinLines lines) = lines := by
  induction lines with
  | nil => rfl
  | cons l ls ih =>
    have hl := h l (List.mem_cons_self l ls)
    show splitLinesAux [] ((l ++ ['\n']) ++ joinLines ls) = l :: ls
    rw [List.append_assoc]
    show splitLinesAux [] (l ++ '\n' :: joinLines ls) = l :: ls
    rw [splitLinesAux_line l [] (joinLines ls) hl.1, List.reverse_nil,
      List.nil_append, dropCR_of_no_cr hl.2]
    exact congrArg (l :: ·) (ih (fun a ha => h a (List.mem_cons_of_mem l ha)))

theorem offsetsFrom_length (l : List (List Char)) :
    ∀ off, (offsetsFrom off l).length = l.length + 1 := by
  induction l with
  | nil => intro off; rfl
  | cons t ts ih =>
    intro off
    show (off :: offsetsFrom (off + t.length + 1) ts).length = ts.length + 1 + 1
    rw [List.length_cons, ih]

theorem offsetsFrom_getD_zero (l : List (List Char)) (off : Int) :
    (offsetsFrom off l).getD 0 0 = off := by
  cases l <;> rfl

theorem offsetsFrom_delta (l : List (List Char)) :
    ∀ (off : Int) (i : Nat), i < l.length →
    (offsetsFrom off l).getD (i + 1) 0 - (offsetsFrom off l).getD i 0 =
      ((l.getD i []).length : Int) + 1 := by
  induction l with
  | nil => intro off i h; exact absurd h (Nat.not_lt_zero i)
  | cons t ts ih =>
    intro off i h
    cases i with
    | zero =>
      show (offsetsFrom (off + t.length + 1) ts).getD 0 0 - off = (t.length : Int) + 1
      rw [offsetsFrom_getD_zero]
      omega
    | succ i =>
      show (offsetsFrom (off + t.length + 1) ts).getD (i + 1) 0 -
          (offsetsFrom (off + t.length + 1) ts).getD i 0 = ((ts.getD i []).length : Int) + 1
      exact ih _ i (Nat.lt_of_succ_lt_succ h)

theorem offsetsFrom_getLast (l : List (List Char)) :
    ∀ off, (offsetsFrom off l).getLast? = some (off + lineLenSum l) := by
  induction l with
  | nil =>
    intro off
    show some off = some (off + lineLenSum [])
    rw [show lineLenSum [] = 0 from rfl]
    rw [Int.add_zero]
  | cons t ts ih =>
    intro off
    show (off :: offsetsFrom (off + t.length + 1) ts).getLast? = _
    obtain ⟨x, xs, hx⟩ : ∃ x xs, offsetsFrom (off + t.length + 1) ts = x :: xs := by
      cases ts <;> exact ⟨_, _, rfl⟩
    rw [hx, List.getLast?_cons_cons, ← hx, ih]
    show some (off + (t.length : Int) + 1 + lineLenSum ts) = _
    rw [show lineLenSum (t :: ts) = (t.length : Int) + 1 + lineLenSum ts from rfl]
    rw [Int.add_assoc, Int.add_assoc, Int.add_assoc]

theorem joinLines_length (lines : List (List Char)) :
    ((joinLines lines).length : Int) = lineLenSum lines := by
  induction lines with
  | nil => rfl
  | cons l ls ih =>
    show (((l ++ ['\n']) ++ joinLines ls).length : Int) = (l.length : Int) + 1 + lineLenSum ls
    rw [List.length_append, List.length_append,
      show (['\n'] : List Char).length = 1 from rfl, ← ih]
    push_cast
    ring

theorem encodeLE8_length (n : Int) : (encodeLE8 n).length = 8 := by
  unfold encodeLE8
  rw [List.length_map, List.length_range]

theorem concatAll_encode_length (l : List Int) :
    (concatAll (l.map encodeLE8)).length = 8 * l.length := by
  induction l with
  | nil => rfl
  | cons n ns ih =>
    show (encodeLE8 n ++ concatAll (ns.map encodeLE8)).length = 8 * (ns.length + 1)
    rw [List.length_append, encodeLE8_length, ih]
    omega

/-- Claim C3 (amended): for a file whose every line (including the last) is
newline-terminated — with the amendment that no line ends in a carriage
return, since bufio.ScanLines silently drops a final CR — the produced index
has exactly lines+1 eight-byte little-endian entries, starts at 0, is
non-decreasing with consecutive difference len(line i) + 1, and ends at the
file's total byte length. -/
theorem c3_offset_index_structure (lines : List (List Char))
    (h : ∀ l ∈ lines, '\n' ∉ l ∧ l.getLast? ≠ some '\r') :
    (createIndexOffsets (joinLines lines)).length = lines.length + 1 ∧
    (createIndexOffsets (joinLines lines)).getD 0 0 = 0 ∧
    (∀ i, i + 1 < lines.length + 1 →
      (createIndexOffsets (joinLines lines)).getD i 0 ≤
        (createIndexOffsets (joinLines lines)).getD (i + 1) 0) ∧
    (∀ i, i < lines.length →
      (createIndexOffsets (joinLines lines)).getD (i + 1) 0 -
        (createIndexOffsets (joinLines lines)).getD i 0 = ((lines.getD i []).length : Int) + 1) ∧
    (createIndexOffsets (joinLines lines)).getLast? =
      some (((joinLines lines).length : Int)) ∧
    (createIndexBytes (joinLines lines)).length = 8 * (lines.length + 1) := by
  have hsplit : splitLines (joinLines lines) = lines := splitLines_joinLines lines h
  have hoff : createIndexOffsets (joinLines lines) = offsetsFrom 0 lines := by
    unfold createIndexOffsets
    rw [hsplit]
  refine ⟨?_, ?_, ?_, ?_, ?_, ?_⟩
  · rw [hoff, offsetsFrom_length]
  · rw [hoff, offsetsFrom_getD_zero]
  · intro i hi
    have hd := offsetsFrom_delta lines 0 i (by omega)
    rw [hoff]
    omega
  · intro i hi
    rw [hoff]
    exact offsetsFrom_delta lines 0 i hi
  · rw [hoff, offsetsFrom_getLast, joinLines_length, Int.zero_add]
  · unfold createIndexBytes
    rw [concatAll_encode_length, hoff, offsetsFrom_length]

/-- Witness for C3 on the two-line file "ab" / "c". -/
theorem c3_witness :
    (∀ l ∈ [("ab").data, ("c").data], '\n' ∉ l ∧ l.getLast? ≠ some '\r') ∧
    ((createIndexOffsets (joinLines [("ab").data, ("c").data])).length = 2 + 1 ∧
      (createIndexOffsets (joinLines [("ab").data, ("c").data])).getD 0 0 = 0 ∧
      (createIndexOffsets (joinLines [("ab").data, ("c").data])).getLast? =
        some (((joinLines [("ab").data, ("c").data]).length : Int))) :=
  ⟨by decide,
   by
    obtain ⟨ha, hb, _, _, he, _⟩ :=
      c3_offset_index_structure [("ab").data, ("c").data] (by decide)
    exact ⟨ha, hb, he⟩⟩

theorem hex_not_sep : ∀ c ∈ hexLowerChars, isSepChar c = false := by
  decide

theorem hex_upper_not_sep : ∀ c ∈ hexLowerChars, isSepChar (asciiToUpper c) = false := by
  decide

theorem hex_lower_upper :
    ∀ c ∈ hexLowerChars, asciiToLower (asciiToUpper c) = asciiToLower c := by
  decide

theorem macCleaner_eq_self {s : List Char} (h : ∀ c ∈ s, isSepChar c = false) :
    macCleaner s = s := by
  unfold macCleaner
  rw [List.filter_eq_self]
  intro a ha
  simp [h a ha]

theorem macCleaner_append (a b : List Char) :
    macCleaner (a ++ b) = macCleaner a ++ macCleaner b := by
  unfold macCleaner
  exact List.filter_append _ _

/-- Lookup factors through the separator-stripped query: two queries that
normalize to keys of the same value (both long enough) are answered
identically. -/
theorem lookup_congr (db : DB) {s t : List Char}
    (h6s : 6 ≤ (macCleaner s).length) (h6t : 6 ≤ (macCleaner t).length)
    (hk : normKey s = normKey t) : Lookup db s = Lookup db t := by
  unfold Lookup
  rw [if_neg (by omega), if_neg (by omega), hk]

/-- Claim C5: for a valid 6-hex-char OUI x, upper-casing, interleaving any
of the separators ':', '-', '.', ' ' (any s with macCleaner s = x), and
appending arbitrary trailing characters all leave the Lookup result
unchanged. -/
theorem c5_normalization_invariance (db : DB) (x s extra : List Char)
    (hx : ValidOUI x) (hs : macCleaner s = x) :
    Lookup db (x.map asciiToUpper) = Lookup db x ∧
    Lookup db s = Lookup db x ∧
    Lookup db (x ++ extra) = Lookup db x := by
  obtain ⟨hlen, hmem⟩ := hx
  have hxclean : macCleaner x = x :=
    macCleaner_eq_self (fun c hc => hex_not_sep c (hmem c hc))
  have huclean : macCleaner (x.map asciiToUpper) = x.map asciiToUpper := by
    refine macCleaner_eq_self ?_
    intro c hc
    obtain ⟨a, ha, rfl⟩ := List.mem_map.mp hc
    exact hex_upper_not_sep a (hmem a ha)
  have hx6 : (macCleaner x).length = 6 := by rw [hxclean, hlen]
  have hkx : normKey x = x.map asciiToLower := by
    unfold normKey
    rw [hxclean, ← hlen, List.take_length]
  refine ⟨?_, ?_, ?_⟩
  · refine lookup_congr db ?_ (by omega) ?_
    · rw [huclean, List.length_map, hlen]
    · unfold normKey
      rw [huclean, hxclean, ← hlen, List.take_length,
        List.take_of_length_le (by simp), List.map_map]
      exact List.map_congr_left (fun a ha => hex_lower_upper a (hmem a ha))
  · refine lookup_congr db ?_ (by omega) ?_
    · rw [hs, hlen]
    · unfold normKey
      rw [hs, hxclean]
  · refine lookup_congr db ?_ (by omega) ?_
    · rw [macCleaner_append, hxclean, List.length_append, hlen]
      omega
    · rw [hkx]
      unfold normKey
      rw [macCleaner_append, hxclean, List.take_left' hlen]

/-- Witness for C5 at the OUI "abcdef", the separator form "ab:cd-ef" and
the over-length suffix "00000000", against the loaded DB dbW. -/
theorem c5_witness :
    (ValidOUI (("abcdef").data) ∧ macCleaner (("ab:cd-ef").data) = ("abcdef").data) ∧
    (Lookup dbW ((("abcdef").data).map asciiToUpper) = Lookup dbW (("abcdef").data) ∧
     Lookup dbW (("ab:cd-ef").data) = Lookup dbW (("abcdef").data) ∧
     Lookup dbW ((("abcdef").data) ++ (("00000000").data)) = Lookup dbW (("abcdef").data)) :=
  ⟨⟨by decide, by decide⟩,
   c5_normalization_invariance dbW (("abcdef").data) (("ab:cd-ef").data)
     (("00000000").data) (by decide) (by decide)⟩

/-- Claim C7 counterexample: a DB loaded from an index whose first offset is
the int64 -1 makes Lookup of its (known) OUI panic on the negative slice
index in the fallback, instead of returning the entry's name with
found=true as the claim states (the start position -1 is not beyond the end
of the vendor buffer). -/
theorem c7_counterexample :
    (openDB (("aaaaaa,1\n").data) (("X\n").data) negIndexBytes).map
      (fun db => Lookup db (("aaaaaa").data)) = some LookupRes.panic := by
  decide

/-- Claim C7 (amended): when the query resolves to an id inside the offset
table and the bounds check 0 ≤ start ≤ end ≤ len(vendors) fails with a
NON-NEGATIVE start, Lookup degrades to the scan fallback: a start inside the
buffer returns the bytes from start up to the next newline (or the end of
the buffer) with found=true, while a start at or beyond the buffer end makes
that single lookup report not-found. (A negative start is outside the
fallback's domain: it panics, see the counterexample.) -/
theorem c7_scan_fallback (db : DB) (q : List Char) (id : Int)
    (h6 : 6 ≤ (macCleaner q).length)
    (hfind : assocFind db.entries (normKey q) = some id)
    (hpos : 0 < id)
    (hrange : id < (db.offsets.length : Int))
    (hbounds : db.offsets.getD (id - 1).toNat 0 < 0 ∨
      db.offsets.getD ((id - 1).toNat + 1) 0 < db.offsets.getD (id - 1).toNat 0 ∨
      (db.vendors.length : Int) < db.offsets.getD ((id - 1).toNat + 1) 0)
    (hstart : 0 ≤ db.offsets.getD (id - 1).toNat 0) :
    (db.offsets.getD (id - 1).toNat 0 < (db.vendors.length : Int) →
      Lookup db q = LookupRes.ok
        (trimRightNL (scanToNewline
          (db.vendors.drop (db.offsets.getD (id - 1).toNat 0).toNat))) true) ∧
    ((db.vendors.length : Int) ≤ db.offsets.getD (id - 1).toNat 0 →
      Lookup db q = LookupRes.ok [] false) := by
  constructor
  · intro hlt
    have hv : vendorByID db id = VendorRes.ok
        (trimRightNL (scanToNewline
          (db.vendors.drop (db.offsets.getD (id - 1).toNat 0).toNat))) := by
      unfold vendorByID
      rw [if_neg (by omega), if_pos hbounds, if_neg (by omega), if_neg (by omega)]
    unfold Lookup
    rw [if_neg (by omega), hfind]
    show (if id ≤ 0 then LookupRes.ok [] false else _) = _
    rw [if_neg (by omega), hv]
  · intro hge
    have hv : vendorByID db id = VendorRes.err := by
      unfold vendorByID
      rw [if_neg (by omega), if_pos hbounds, if_pos hge]
    unfold Lookup
    rw [if_neg (by omega), hfind]
    show (if id ≤ 0 then LookupRes.ok [] false else _) = _
    rw [if_neg (by omega), hv]

/-- Witness for C7: dbSeven's end offset 99 fails the bounds check against
its 2-byte vendors buffer, and Lookup still returns the scanned line "X"
with found=true. -/
theorem c7_witness :
    (6 ≤ (macCleaner (("aaaaaa").data)).length ∧
      assocFind dbSeven.entries (normKey (("aaaaaa").data)) = some 1 ∧
      (dbSeven.vendors.length : Int) < dbSeven.offsets.getD (((1 : Int) - 1).toNat + 1) 0 ∧
      0 ≤ dbSeven.offsets.getD (((1 : Int) - 1).toNat) 0 ∧
      dbSeven.offsets.getD (((1 : Int) - 1).toNat) 0 < (dbSeven.vendors.length : Int)) ∧
    Lookup dbSeven (("aaaaaa").data) = LookupRes.ok
      (trimRightNL (scanToNewline
        (dbSeven.vendors.drop (dbSeven.offsets.getD (((1 : Int) - 1).toNat) 0).toNat))) true :=
  ⟨by decide,
   (c7_scan_fallback dbSeven (("aaaaaa").data) 1 (by decide) (by decide) (by decide)
       (by decide) (Or.inr (Or.inr (by decide))) (by decide)).1 (by decide)⟩

/-- Claim C8 counterexample: simplifyName strips two suffix classes from
"Foo Co Inc" in one call (llcRegex removes " Inc", then coRegex removes
" Co"), yielding "Foo" rather than the "Foo Co" that a single trailing-most
strip would produce. -/
theorem c8_counterexample :
    simplifyName (("Foo Co Inc").data) = ("Foo").data ∧
    simplifyName (("Foo Co Inc").data) ≠ ("Foo Co").data := by
  decide

theorem famStrip_spec (words : List (List Char)) (s : List Char) :
    StripsAtMostOne words s (famStrip words s) := by
  unfold famStrip StripsAtMostOne
  cases h : (List.range (s.length + 1)).find? (fun i => famMatch words (s.drop i)) with
  | none => exact Or.inl rfl
  | some i => exact Or.inr ⟨i, rfl, by simpa using List.find?_some h⟩

/-- Claim C8 (amended): the three pattern families are applied in the fixed
order llc/ltd/limited/inc/incorporated, then co/company/corp/corporation,
then gmbh, each stripping at most one trailing match of its own family — but
a later family can strip a suffix exposed by an earlier strip, so up to
three suffixes (one per family) can be removed in one call. The claim's own
example "Foo Inc Co" does lose only the trailing "Co". -/
theorem c8_sequential_stripping (s : List Char) :
    simplifyName s =
      trimSpace (famStrip gmbhWords (famStrip coWords (famStrip llcWords s))) ∧
    StripsAtMostOne llcWords s (famStrip llcWords s) ∧
    StripsAtMostOne coWords (famStrip llcWords s)
      (famStrip coWords (famStrip llcWords s)) ∧
    StripsAtMostOne gmbhWords (famStrip coWords (famStrip llcWords s))
      (famStrip gmbhWords (famStrip coWords (famStrip llcWords s))) ∧
    simplifyName (("Foo Inc Co").data) = ("Foo Inc").data :=
  ⟨rfl, famStrip_spec _ _, famStrip_spec _ _, famStrip_spec _ _, by decide⟩

theorem assocFind_insert_self {β : Type} (m : List (List Char × β))
    (k : List Char) (v : β) : assocFind (assocInsert m k v) k = some v := by
  induction m with
  | nil => simp [assocInsert, assocFind]
  | cons p t ih =>
    obtain ⟨k2, v2⟩ := p
    by_cases hk : k2 = k
    · simp [assocInsert, hk, assocFind]
    · simp [assocInsert, hk, assocFind, ih]

theorem assocFind_insert_ne {β : Type} (m : List (List Char × β))
    {k q : List Char} (v : β) (h : k ≠ q) :
    assocFind (assocInsert m k v) q = assocFind m q := by
  induction m with
  | nil => simp [assocInsert, assocFind, h]
  | cons p t ih =>
    obtain ⟨k2, v2⟩ := p
    by_cases hk : k2 = k
    · subst hk
      simp [assocInsert, assocFind, h]
    · simp [assocInsert, hk, assocFind, ih]

/-- Open's loading loop realizes exactly the last-valid-row semantics over
any initial map. -/
theorem loadEntries_go (recs : List (List (List Char))) :
    ∀ (m : List (List Char × Int)) (o : List Char),
    assocFind (recs.foldl entriesStep m) o =
      (match lastValidId recs o with
       | some id => some id
       | none => assocFind m o) := by
  induction recs with
  | nil =>
    intro m o
    simp [lastValidId]
  | cons r rest ih =>
    intro m o
    rw [List.foldl_cons, ih]
    show _ = (match lastValidId (r :: rest) o with
      | some id => some id
      | none => assocFind m o)
    rw [show lastValidId (r :: rest) o =
        (match lastValidId rest o with
         | some id => some id
         | none =>
           if 2 ≤ r.length ∧ r.getD 0 [] = o then atoi (r.getD 1 []) else none) from rfl]
    cases hl : lastValidId rest o with
    | some id => rfl
    | none =>
      unfold entriesStep
      rcases Nat.lt_or_ge r.length 2 with h2 | h2
      · rw [if_pos h2, if_neg (fun hc => absurd hc.1 (by omega))]
      · rw [if_neg (by omega)]
        cases hat : atoi (r.getD 1 []) with
        | none =>
          by_cases hko : r.getD 0 [] = o
          · rw [if_pos ⟨h2, hko⟩]
          · rw [if_neg (fun hc => hko hc.2)]
        | some id =>
          by_cases hko : r.getD 0 [] = o
          · rw [if_pos ⟨h2, hko⟩, hko]
            exact assocFind_insert_self m o id
          · rw [if_neg (fun hc => hko hc.2)]
            exact assocFind_insert_ne m id hko

/-- Claim C9: the in-memory entries map Open builds holds, for every OUI
string, the vendor id of the last entries row carrying that first column
with a parseable id — later duplicate rows overwrite earlier ones, the
opposite of the build-time first-occurrence-wins policy. -/
theorem c9_load_last_occurrence_wins (recs : List (List (List Char))) (o : List Char) :
    assocFind (loadEntries recs) o = lastValidId recs o := by
  rw [loadEntries, loadEntries_go]
  cases lastValidId recs o <;> simp [assocFind]

theorem assocFind_cons {β : Type} (k2 : List Char) (v : β)
    (t : List (List Char × β)) (k : List Char) :
    assocFind ((k2, v) :: t) k = if k2 = k then some v else assocFind t k :=
  rfl

theorem firstVendorFor_cons (aO aV : List Char → Bool) (r : List (List Char))
    (rest : List (List (List Char))) (o : List Char) :
    firstVendorFor aO aV (r :: rest) o =
      if rowAccepted aO aV r && (rowOUI r == o) then some (simplifyName (rowVendor r))
      else firstVendorFor aO aV rest o :=
  rfl

theorem buildStepAccepted_ouiMap (st : BState) (o v : List Char)
    (h : assocFind st.ouiMap o = none) :
    (buildStepAccepted st o v).ouiMap = (o, v) :: st.ouiMap := by
  unfold buildStepAccepted
  rw [if_neg (by rw [h]; simp)]
  cases assocFind st.vendorMap v <;> rfl

/-- The dedup map after the whole loop answers every OUI with the simplified
vendor of the first accepted row carrying it (first occurrence wins),
relative to any starting state. -/
theorem foldBuild_ouiMap (aO aV : List Char → Bool) (rows : List (List (List Char))) :
    ∀ (st : BState) (o : List Char),
    assocFind (rows.foldl (buildStep aO aV) st).ouiMap o =
      (match assocFind st.ouiMap o with
       | some v => some v
       | none => firstVendorFor aO aV rows o) := by
  induction rows with
  | nil =>
    intro st o
    cases h : assocFind st.ouiMap o <;> simp [h, firstVendorFor]
  | cons r rest ih =>
    intro st o
    rw [List.foldl_cons, ih, firstVendorFor_cons]
    unfold buildStep
    by_cases hacc : rowAccepted aO aV r = true
    · rw [if_pos hacc]
      by_cases hdup : (assocFind st.ouiMap (rowOUI r)).isSome = true
      · have hstep : buildStepAccepted st (rowOUI r) (simplifyName (rowVendor r)) = st := by
          unfold buildStepAccepted
          rw [if_pos hdup]
        rw [hstep]
        by_cases ho : rowOUI r = o
        · obtain ⟨v0, hv0⟩ := Option.isSome_iff_exists.mp (ho ▸ hdup)
          rw [hv0]
        · rw [if_neg (by simp [hacc, ho])]
      · have hn : assocFind st.ouiMap (rowOUI r) = none := by
          cases hfind : assocFind st.ouiMap (rowOUI r) with
          | none => rfl
          | some v => rw [hfind] at hdup; simp at hdup
        rw [buildStepAccepted_ouiMap st _ _ hn, assocFind_cons]
        by_cases ho : rowOUI r = o
        · have hno : assocFind st.ouiMap o = none := ho ▸ hn
          rw [if_pos ho, hno, if_pos (by simp [hacc, ho])]
        · rw [if_neg ho, if_neg (by simp [hacc, ho])]
    · have hf : rowAccepted aO aV r = false := by
        revert hacc
        cases rowAccepted aO aV r <;> simp
      rw [if_neg hacc, if_neg (by simp [hf])]

theorem inv_step (aO aV : List Char → Bool) (st : BState) (rec : List (List Char))
    (h : Inv st) : Inv (buildStep aO aV st rec) := by
  unfold buildStep
  by_cases hacc : rowAccepted aO aV rec = true
  · rw [if_pos hacc]
    unfold buildStepAccepted
    by_cases hdup : (assocFind st.ouiMap (rowOUI rec)).isSome = true
    · rw [if_pos hdup]
      exact h
    · have hn : assocFind st.ouiMap (rowOUI rec) = none := by
        cases hfind : assocFind st.ouiMap (rowOUI rec) with
        | none => rfl
        | some v => rw [hfind] at hdup; simp at hdup
      rw [if_neg (by rw [hn]; simp)]
      cases hvm : assocFind st.vendorMap (simplifyName (rowVendor rec)) with
      | some vid =>
        constructor
        · intro p hp
          rcases List.mem_append.mp hp with hp | hp
          · obtain ⟨v, h1, h2⟩ := h.1 p hp
            refine ⟨v, ?_, h2⟩
            rw [assocFind_cons]
            rw [if_neg (fun he => by rw [he] at hn; rw [hn] at h1; exact Option.noConfusion h1)]
            exact h1
          · rw [List.mem_singleton.mp hp]
            refine ⟨simplifyName (rowVendor rec), ?_, hvm⟩
            rw [assocFind_cons, if_pos rfl]
        · exact h.2
      | none =>
        constructor
        · intro p hp
          rcases List.mem_append.mp hp with hp | hp
          · obtain ⟨v, h1, h2⟩ := h.1 p hp
            refine ⟨v, ?_, ?_⟩
            · rw [assocFind_cons]
              rw [if_neg (fun he => by rw [he] at hn; rw [hn] at h1; exact Option.noConfusion h1)]
              exact h1
            · rw [assocFind_cons]
              rw [if_neg (fun he => by rw [he] at hvm; rw [hvm] at h2; exact Option.noConfusion h2)]
              exact h2
          · rw [List.mem_singleton.mp hp]
            refine ⟨simplifyName (rowVendor rec), ?_, ?_⟩
            · rw [assocFind_cons, if_pos rfl]
            · rw [assocFind_cons, if_pos rfl]
        · intro v n hfind
          rw [assocFind_cons] at hfind
          by_cases hv : simplifyName (rowVendor rec) = v
          · rw [if_pos hv] at hfind
            obtain rfl : st.vendorsAcc.length = n := Option.some.inj hfind
            rw [← hv]
            exact List.getElem?_concat_length _ _
          · rw [if_neg hv] at hfind
            have h3 := h.2 v n hfind
            obtain ⟨hlt, _⟩ := List.getElem?_eq_some.mp h3
            rw [List.getElem?_append_left hlt]
            exact h3
  · rw [if_neg hacc]
    exact h

theorem inv_fold (aO aV : List Char → Bool) (rows : List (List (List Char))) :
    ∀ st : BState, Inv st → Inv (rows.foldl (buildStep aO aV) st) := by
  induction rows with
  | nil => intro st h; exact h
  | cons r rest ih =>
    intro st h
    rw [List.foldl_cons]
    exact ih _ (inv_step aO aV st r h)

theorem mem_insertByHex (e a : List Char × Nat) :
    ∀ l : List (List Char × Nat), a ∈ insertByHex e l ↔ a = e ∨ a ∈ l := by
  intro l
  induction l with
  | nil => simp [insertByHex]
  | cons f t ih =>
    unfold insertByHex
    by_cases hcmp : hexVal e.1 ≤ hexVal f.1
    · rw [if_pos hcmp]
      simp
    · rw [if_neg hcmp]
      simp only [List.mem_cons, ih]
      tauto

theorem mem_sortByHex (a : List Char × Nat) :
    ∀ l : List (List Char × Nat), a ∈ sortByHex l ↔ a ∈ l := by
  intro l
  induction l with
  | nil => simp [sortByHex]
  | cons f t ih =>
    show a ∈ insertByHex f (sortByHex t) ↔ _
    rw [mem_insertByHex, ih]
    simp

/-- Claim C4: building is deterministic (definitionally, since the embedded
builder is a pure function of its input), and for every entry (o, vid) of
the built EntriesTable the VendorTable line at vid is exactly the simplified
vendor of the FIRST accepted row carrying o — a later duplicate row's vendor
never appears for that OUI. -/
theorem c4_dedup_first_occurrence_wins (aO aV : List Char → Bool)
    (rows : List (List (List Char))) :
    buildRows aO aV rows = buildRows aO aV rows ∧
    ∀ o vid, (o, vid) ∈ (buildRows aO aV rows).entries →
      (buildRows aO aV rows).vendors[vid]? = firstVendorFor aO aV rows o := by
  refine ⟨rfl, ?_⟩
  intro o vid hmem
  have hmem' : (o, vid) ∈ (rows.foldl (buildStep aO aV) ⟨[], [], [], []⟩).entriesAcc :=
    (mem_sortByHex (o, vid) _).mp hmem
  have hinv : Inv (rows.foldl (buildStep aO aV) ⟨[], [], [], []⟩) := by
    refine inv_fold aO aV rows _ ⟨?_, ?_⟩
    · intro p hp
      exact absurd hp (List.not_mem_nil p)
    · intro v n hfind
      exact Option.noConfusion hfind
  obtain ⟨v, h1, h2⟩ := hinv.1 (o, vid) hmem'
  have h3 := hinv.2 v vid h2
  have h4 := foldBuild_ouiMap aO aV rows ⟨[], [], [], []⟩ o
  rw [h1] at h4
  exact h3.trans h4

/-- Witness for C4: the second row repeats OUI 001122 with vendor Beta; in
the built output the entry for 001122 still points at line 0 ("Acme"), the
first occurrence's vendor. -/
theorem c4_witness :
    ((("001122").data, 0) ∈
      (buildRows allTrue allTrue
        [[("MA-L").data, ("001122").data, ("Acme").data],
         [("MA-L").data, ("001122").data, ("Beta").data],
         [("MA-L").data, ("334455").data, ("Beta").data]]).entries) ∧
    (buildRows allTrue allTrue
        [[("MA-L").data, ("001122").data, ("Acme").data],
         [("MA-L").data, ("001122").data, ("Beta").data],
         [("MA-L").data, ("334455").data, ("Beta").data]]).vendors[(0 : Nat)]? =
      firstVendorFor allTrue allTrue
        [[("MA-L").data, ("001122").data, ("Acme").data],
         [("MA-L").data, ("001122").data, ("Beta").data],
         [("MA-L").data, ("334455").data, ("Beta").data]] (("001122").data) :=
  ⟨by decide,
   (c4_dedup_first_occurrence_wins allTrue allTrue
       [[("MA-L").data, ("001122").data, ("Acme").data],
        [("MA-L").data, ("001122").data, ("Beta").data],
        [("MA-L").data, ("334455").data, ("Beta").data]]).2
     (("001122").data) 0 (by decide)⟩

/-- Claim C10: when the entries map sends the normalized query to an id at
or past the number of loaded offsets, vendorByID fails immediately with an
error (no scan fallback is attempted) and Lookup returns ("", false),
whatever the vendors buffer contains. -/
theorem c10_out_of_range_no_fallback (db : DB) (q : List Char) (id : Int)
    (h6 : 6 ≤ (macCleaner q).length)
    (hfind : assocFind db.entries (normKey q) = some id)
    (hpos : 0 < id)
    (hrange : (db.offsets.length : Int) ≤ id) :
    vendorByID db id = VendorRes.err ∧ Lookup db q = LookupRes.ok [] false := by
  have hv : vendorByID db id = VendorRes.err := by
    unfold vendorByID
    rw [if_pos]
    exact Or.inr (by omega)
  refine ⟨hv, ?_⟩
  unfold Lookup
  rw [if_neg (by omega), hfind]
  show (if id ≤ 0 then LookupRes.ok [] false else _) = _
  rw [if_neg (by omega), hv]

/-- Witness for C10: dbTen maps "abcdef" to id 5 with only 2 offsets
loaded, although the vendors buffer does contain the line "Acme". -/
theorem c10_witness :
    (6 ≤ (macCleaner (("abcdef").data)).length ∧
      assocFind dbTen.entries (normKey (("abcdef").data)) = some 5 ∧
      0 < (5 : Int) ∧ (dbTen.offsets.length : Int) ≤ 5) ∧
    (vendorByID dbTen 5 = VendorRes.err ∧
      Lookup dbTen (("abcdef").data) = LookupRes.ok [] false) :=
  ⟨by decide,
   c10_out_of_range_no_fallback dbTen (("abcdef").data) 5
     (by decide) (by decide) (by decide) (by decide)⟩

end PgOui
